import Mathlib

/-!
Verification development for the YAML2Python editor (gptCLI.py, gptInterpreter.py).
Python strings are modelled as lists of characters; the Python library
functions used by the program (splitlines, replace, split, strip, lower,
the substring test) are embedded as executable Lean functions below.
-/

namespace Y2P

/-- Python strings are modelled as lists of characters. -/
abbrev PyStr := List Char

/-- The backquote character, code 96. -/
def bq : Char := Char.ofNat 96

/-- The hash character used to comment out lines, code 35. -/
def hashChar : Char := Char.ofNat 35

/-- The newline character, code 10. -/
def nlChar : Char := Char.ofNat 10

/-- The semicolon command-mode marker character, code 59. -/
def semiChar : Char := Char.ofNat 59

/-- The single-quote character, code 39. -/
def squote : Char := Char.ofNat 39

/-- The set of characters Python treats as whitespace: the set accepted by
str.isspace, which is also what str.strip and str.split with no arguments
use and what the regular-expression class of space characters matches. -/
def isPySpace (c : Char) : Bool :=
  c.toNat ∈ [9, 10, 11, 12, 13, 28, 29, 30, 31, 32, 133, 160, 5760,
    8192, 8193, 8194, 8195, 8196, 8197, 8198, 8199, 8200, 8201, 8202,
    8232, 8233, 8239, 8287, 12288]

/-- The line boundaries recognized by str.splitlines: LF, VT, FF, CR,
FS, GS, RS, NEL, LINE SEPARATOR, PARAGRAPH SEPARATOR (CRLF is one break). -/
def isLineBreak (c : Char) : Bool :=
  c.toNat ∈ [10, 11, 12, 13, 28, 29, 30, 133, 8232, 8233]

/-- A string free of line-boundary characters. -/
def breakFree (l : PyStr) : Bool := l.all (fun c => !isLineBreak c)

/-- Worker for str.splitlines: cur is the reversed current line; a CR
directly followed by LF counts as a single break; at exhaustion the final
segment is emitted only when nonempty (so a terminal break adds no line). -/
def slAux (cur : List Char) : List Char → List PyStr
  | [] => if cur.isEmpty then [] else [cur.reverse]
  | c :: t =>
    if c.toNat = 13 then
      match t with
      | t1 :: t2 =>
        if t1.toNat = 10 then cur.reverse :: slAux [] t2
        else cur.reverse :: slAux [] (t1 :: t2)
      | [] => cur.reverse :: slAux [] []
    else if isLineBreak c then cur.reverse :: slAux [] t
    else slAux (c :: cur) t

/-- Python str.splitlines. -/
def pySplitlines (s : PyStr) : List PyStr := slAux [] s

/-- Fueled worker for str.replace: replaces non-overlapping occurrences of
pat left to right; each step consumes one unit of fuel and at least one
character, so fuel equal to the length of the string suffices. -/
def replaceFuel (pat repl : PyStr) : Nat → PyStr → PyStr
  | 0, s => s
  | f + 1, s =>
    if pat ≠ [] ∧ pat.isPrefixOf s then
      repl ++ replaceFuel pat repl f (s.drop pat.length)
    else
      match s with
      | [] => []
      | c :: t => c :: replaceFuel pat repl f t

/-- Python str.replace (all occurrences, left to right, non-overlapping). -/
def pyReplace (pat repl s : PyStr) : PyStr := replaceFuel pat repl s.length s

/-- Fueled worker for the Python substring test (the in operator). -/
def containsFuel (pat : PyStr) : Nat → PyStr → Bool
  | 0, s => pat.isPrefixOf s
  | f + 1, s =>
    pat.isPrefixOf s ||
      match s with
      | [] => false
      | _ :: t => containsFuel pat f t

/-- Python substring membership: pat in s. -/
def pyContains (pat s : PyStr) : Bool := containsFuel pat s.length s

/-- Fueled worker for str.split with a separator string. -/
def splitFuel (pat : PyStr) : Nat → PyStr → List PyStr
  | 0, s => [s]
  | f + 1, s =>
    if pat ≠ [] ∧ pat.isPrefixOf s then
      [] :: splitFuel pat f (s.drop pat.length)
    else
      match s with
      | [] => [[]]
      | c :: t =>
        match splitFuel pat f t with
        | [] => [[c]]
        | h :: r => (c :: h) :: r

/-- Python str.split with a nonempty separator string. -/
def pySplit (pat s : PyStr) : List PyStr := splitFuel pat s.length s

/-- Fueled worker computing the text before the first occurrence of pat
(the whole string when there is no occurrence). -/
def beforeFuel (pat : PyStr) : Nat → PyStr → PyStr
  | 0, s => if pat.isPrefixOf s then [] else s
  | f + 1, s =>
    if pat.isPrefixOf s then []
    else
      match s with
      | [] => []
      | c :: t => c :: beforeFuel pat f t

/-- The text before the first occurrence of pat; the whole string when pat
does not occur.  This is the specification-level reading of
"everything before the marker". -/
def takeBeforeFirstOcc (pat s : PyStr) : PyStr := beforeFuel pat s.length s

/-- Fueled worker computing the text after the first occurrence of pat. -/
def afterFuel (pat : PyStr) : Nat → PyStr → Option PyStr
  | 0, s => if pat.isPrefixOf s then some (s.drop pat.length) else none
  | f + 1, s =>
    if pat.isPrefixOf s then some (s.drop pat.length)
    else
      match s with
      | [] => none
      | _ :: t => afterFuel pat f t

/-- The text after the first occurrence of pat, or none when pat does not
occur.  This is the specification-level reading of
"everything after the marker". -/
def afterFirstOcc (pat s : PyStr) : Option PyStr := afterFuel pat s.length s

/-- Python str.strip with no argument: removes leading and trailing
whitespace characters. -/
def pyStrip (s : PyStr) : PyStr :=
  ((s.dropWhile isPySpace).reverse.dropWhile isPySpace).reverse

/-- Python str.lstrip with an explicit character: removes every leading
copy of that character. -/
def pyLstripChar (ch : Char) (s : PyStr) : PyStr :=
  s.dropWhile (fun c => c = ch)

/-- Fueled worker for str.split with no argument: splits on runs of
whitespace and never yields empty words. -/
def wordsFuel : Nat → PyStr → List PyStr
  | 0, _ => []
  | f + 1, s =>
    let s1 := s.dropWhile isPySpace
    match s1 with
    | [] => []
    | _ :: _ =>
      let w := s1.takeWhile (fun c => !isPySpace c)
      w :: wordsFuel f (s1.drop w.length)

/-- Python str.split with no argument. -/
def pySplitWs (s : PyStr) : List PyStr := wordsFuel s.length s

/-- Python str.lower restricted to the Latin-1 range typed by the editor:
ASCII capitals and the Latin-1 capitals 192-222 (except the multiplication
sign 215) move down by 32; other characters are unchanged. -/
def pyLowerChar (c : Char) : Char :=
  if 65 ≤ c.toNat ∧ c.toNat ≤ 90 then Char.ofNat (c.toNat + 32)
  else if 192 ≤ c.toNat ∧ c.toNat ≤ 222 ∧ c.toNat ≠ 215 then Char.ofNat (c.toNat + 32)
  else c

/-- Python str.lower on a string. -/
def pyLower (s : PyStr) : PyStr := s.map pyLowerChar

/-- Python " ".join on a list of strings. -/
def pyJoinSpace (parts : List PyStr) : PyStr := List.intercalate [Char.ofNat 32] parts

/-- The newline string used by "\n".join. -/
def newlineStr : PyStr := [nlChar]

/-! ## The response parser

The strict pattern used at gptCLI.py lines 309 and 343 is the
regular expression
Status: ws g1 newline Desc: ws g2 newline Next: ws g3 newline Code: ws g4
searched anywhere in the reply with the dot also matching newlines, the
whitespace stars greedy, the first three groups lazy and the last greedy.
The matcher below embeds exactly the backtracking order of that engine:
start positions left to right, each greedy star longest first, each lazy
group shortest first, first full match wins. -/

/-- Does the literal lit occur in s at position i. -/
def litAt (lit s : PyStr) (i : Nat) : Bool := lit.isPrefixOf (s.drop i)

/-- Length of the whitespace run of s starting at position i. -/
def wsRun (s : PyStr) (i : Nat) : Nat := ((s.drop i).takeWhile isPySpace).length

/-- End positions a greedy whitespace star can reach from i, preferred
(longest) first. -/
def wsChoices (s : PyStr) (i : Nat) : List Nat :=
  (List.range (wsRun s i + 1)).reverse.map (i + ·)

/-- Positions from i to n, the preference order of a lazy dot star when
the dot also matches newlines. -/
def posUpTo (i n : Nat) : List Nat := List.range' i (n + 1 - i)

/-- The substring of s from position a (inclusive) to b (exclusive). -/
def sliceStr (s : PyStr) (a b : Nat) : PyStr := (s.drop a).take (b - a)

/-- The strict four-label search; some (g1, g2, g3, g4) gives the four
captured groups, none means the pattern fails to match. -/
def strictMatch (s : PyStr) : Option (PyStr × PyStr × PyStr × PyStr) :=
  let n := s.length
  (List.range (n + 1)).findSome? (fun p =>
    if litAt "Status:".data s p then
      (wsChoices s (p + 7)).findSome? (fun a =>
        (posUpTo a n).findSome? (fun b =>
          if litAt "\nDesc:".data s b then
            (wsChoices s (b + 6)).findSome? (fun c =>
              (posUpTo c n).findSome? (fun d =>
                if litAt "\nNext:".data s d then
                  (wsChoices s (d + 6)).findSome? (fun e =>
                    (posUpTo e n).findSome? (fun f =>
                      if litAt "\nCode:".data s f then
                        (wsChoices s (f + 6)).findSome? (fun g =>
                          some (sliceStr s a b, sliceStr s c d,
                                sliceStr s e f, sliceStr s g n))
                      else none))
                else none))
          else none))
    else none)

/-- The marker string split on by the fallback parse. -/
def codeMarker : PyStr := "Code:".data

/-- The four stripped fields produced from a strict match
(gptCLI.py lines 311-315). -/
def parsedFields (r : PyStr) : Option (PyStr × PyStr × PyStr × PyStr) :=
  (strictMatch r).map (fun g => (pyStrip g.1, pyStrip g.2.1, pyStrip g.2.2.1, pyStrip g.2.2.2))

/-- The header text and code section computed by the execute handler
(gptCLI.py lines 309-318): the strict parse when it matches, otherwise
the split on the Code: marker, otherwise the whole reply as header. -/
def parseExec (r : PyStr) : PyStr × PyStr :=
  match parsedFields r with
  | some (s1, s2, s3, c4) =>
    ("Status: ".data ++ s1 ++ "\nDesc: ".data ++ s2 ++ "\nNext: ".data ++ s3, c4)
  | none =>
    if pyContains codeMarker r then
      (pyStrip ((pySplit codeMarker r).headD []),
       pyStrip ((pySplit codeMarker r).getD 1 []))
    else (pyStrip r, [])

/-! ## The code runner sanitation (run_code_section, gptCLI.py lines 126-136) -/

/-- The markdown fence marker with language tag. -/
def fencePy : PyStr := "```python".data

/-- The bare markdown fence marker. -/
def fence : PyStr := "```".data

/-- Fence removal: code_str.replace of the python fence then of the bare
fence, each occurrence deleted. -/
def stripFences (s : PyStr) : PyStr := pyReplace fence [] (pyReplace fencePy [] s)

/-- The label test of gptCLI.py line 132: an anchored match of optional
leading whitespace followed by Status:, Desc: or Next:.  Since none of
the labels starts with a whitespace character the greedy whitespace star
cannot give characters back, so the match succeeds exactly when one of
the three labels follows the maximal leading whitespace run. -/
def labelMatch (l : PyStr) : Bool :=
  let t := l.dropWhile isPySpace
  "Status:".data.isPrefixOf t || "Desc:".data.isPrefixOf t || "Next:".data.isPrefixOf t

/-- Commenting of a header line: a hash is prepended to a line matching
the label test, any other line passes unchanged. -/
def commentLabel (l : PyStr) : PyStr := if labelMatch l then hashChar :: l else l

/-- The full preprocessing of run_code_section: fences removed, then every
header-label line commented out, and the lines rejoined with newlines. -/
def sanitizeCode (s : PyStr) : PyStr :=
  List.intercalate newlineStr ((pySplitlines (stripFences s)).map commentLabel)

/-- No three consecutive backquotes anywhere: the shape of a string free
of bare fence markers. -/
def noTriple : List Char → Bool
  | c1 :: c2 :: c3 :: t =>
    (!(c1 == bq && c2 == bq && c3 == bq)) && noTriple (c2 :: c3 :: t)
  | _ => true

/-! ## The editor state and the insert-mode events (run_editor) -/

/-- The mutable editor data owned by run_editor: the text buffer, the
cursor, the last compile response and the api key. -/
structure Editor where
  buffer : List PyStr
  cy : Nat
  cx : Nat
  lastCompile : Option PyStr
  apiKey : PyStr
deriving DecidableEq, Repr

/-- The line under the cursor. -/
def curLine (st : Editor) : PyStr := st.buffer.getD st.cy []

/-- The buffer produced by the open verb from a file content
(gptCLI.py line 406): content.splitlines() with the empty list replaced
by one empty line. -/
def openBufferOf (content : PyStr) : List PyStr :=
  if pySplitlines content = [] then [[]] else pySplitlines content

/-- The file content written by the save verb (gptCLI.py line 416):
the buffer lines joined with newlines. -/
def saveContent (buffer : List PyStr) : PyStr := List.intercalate newlineStr buffer

/-- The insert-mode editing events of the key loop (gptCLI.py lines
242-288) plus a successful open verb (lines 401-407). -/
inductive EdEvent where
  | insertChar (c : Char)
  | backspace
  | enter
  | moveLeft
  | moveRight
  | moveUp
  | moveDown
  | openFile (content : PyStr)
deriving DecidableEq, Repr

/-- One step of the insert-mode key handling, translated branch by branch
from gptCLI.py lines 246-288 and 401-407. -/
def edStep (st : Editor) (e : EdEvent) : Editor :=
  match e with
  | .insertChar c =>
    let line := curLine st
    { st with buffer := st.buffer.set st.cy (line.take st.cx ++ c :: line.drop st.cx),
              cx := st.cx + 1 }
  | .backspace =>
    if st.cx > 0 then
      let line := curLine st
      { st with buffer := st.buffer.set st.cy (line.take (st.cx - 1) ++ line.drop st.cx),
                cx := st.cx - 1 }
    else if st.cy > 0 then
      let prev := st.buffer.getD (st.cy - 1) []
      let cur := curLine st
      { st with buffer := (st.buffer.eraseIdx st.cy).set (st.cy - 1) (prev ++ cur),
                cy := st.cy - 1, cx := prev.length }
    else st
  | .enter =>
    let line := curLine st
    { st with buffer := ((st.buffer.set st.cy (line.take st.cx)).insertIdx (st.cy + 1)
                          (line.drop st.cx)),
              cy := st.cy + 1, cx := 0 }
  | .moveLeft =>
    if st.cx > 0 then { st with cx := st.cx - 1 }
    else if st.cy > 0 then
      { st with cy := st.cy - 1, cx := (st.buffer.getD (st.cy - 1) []).length }
    else st
  | .moveRight =>
    if st.cx < (curLine st).length then { st with cx := st.cx + 1 }
    else if st.cy + 1 < st.buffer.length then { st with cy := st.cy + 1, cx := 0 }
    else st
  | .moveUp =>
    if st.cy > 0 then
      { st with cy := st.cy - 1, cx := min st.cx ((st.buffer.getD (st.cy - 1) []).length) }
    else st
  | .moveDown =>
    if st.cy + 1 < st.buffer.length then
      { st with cy := st.cy + 1, cx := min st.cx ((st.buffer.getD (st.cy + 1) []).length) }
    else st
  | .openFile content =>
    { st with buffer := openBufferOf content, cy := 0, cx := 0 }

/-- The initial editor state of run_editor: one empty line, cursor at the
origin, no compile response yet. -/
def edInit : Editor := ⟨[[]], 0, 0, none, []⟩

/-- The documented buffer and cursor invariant: at least one line, the
cursor row a valid index, the cursor column at most the line length. -/
def EdInv (st : Editor) : Prop :=
  st.buffer ≠ [] ∧ st.cy < st.buffer.length ∧ st.cx ≤ (curLine st).length

/-! ## The command dispatcher (run_editor, gptCLI.py lines 289-462)

The terminal, the completion endpoint and the file system are outside
the program; they are modelled by an oracle record.  Dispatch returns an
exceptional result exactly where the Python handler would let an
exception escape the command branch; the success value carries the new
editor data, whether the session ends, and the one-line message shown in
the command bar, so that the reporting branches stay distinguishable. -/

/-- The outside world of one dispatched command: the completion reply
(none meaning the client raised), whether file writes, file removals and
file reads succeed, which files exist, and the modal user input. -/
structure EdWorld where
  respond : Option PyStr
  writeOk : Bool
  removeOk : Bool
  keyFileExists : Bool
  fileExists : PyStr → Bool
  readFile : PyStr → Option PyStr
  userInput : PyStr

/-- Outcome of a dispatched command: the session ends, or it continues
with new editor data and an optional command-bar message. -/
inductive CmdOut where
  | exitEditor
  | proceed (st : Editor) (msg : Option PyStr)
deriving DecidableEq, Repr

instance {ε : Type u} {α : Type v} [DecidableEq ε] [DecidableEq α] :
    DecidableEq (Except ε α) := fun a b =>
  match a, b with
  | .error e1, .error e2 =>
    if h : e1 = e2 then .isTrue (by rw [h]) else .isFalse (by intro hx; cases hx; exact h rfl)
  | .ok v1, .ok v2 =>
    if h : v1 = v2 then .isTrue (by rw [h]) else .isFalse (by intro hx; cases hx; exact h rfl)
  | .error _, .ok _ => .isFalse (by intro hx; cases hx)
  | .ok _, .error _ => .isFalse (by intro hx; cases hx)

/-- The truthiness test of gptCLI.py lines 366 and 379:
last_compile_response is a nonempty string containing the Code: marker. -/
def lastHasCode (st : Editor) : Bool :=
  match st.lastCompile with
  | none => false
  | some r => !r.isEmpty && pyContains codeMarker r

/-- The recognized verbs, one per branch of the elif chain. -/
inductive Verb where
  | vExecute
  | vCompile
  | vRun
  | vSavepy
  | vOpen
  | vSave
  | vDeletekey
  | vRekey
  | vHelp
  | vExit
  | vUnknown
deriving DecidableEq, Repr

/-- The elif chain of gptCLI.py lines 299-448 deciding which handler runs:
the guards of savepy, open and save also require at least one argument. -/
def toVerb (cmd : PyStr) (args : List PyStr) : Verb :=
  if cmd = "execute".data then .vExecute
  else if cmd = "compile".data then .vCompile
  else if cmd = "run".data then .vRun
  else if cmd = "savepy".data ∧ args ≠ [] then .vSavepy
  else if cmd = "open".data ∧ args ≠ [] then .vOpen
  else if cmd = "save".data ∧ args ≠ [] then .vSave
  else if cmd = "deletekey".data then .vDeletekey
  else if cmd = "rekey".data then .vRekey
  else if cmd = "help".data then .vHelp
  else if cmd = "exit".data then .vExit
  else .vUnknown

/-- One pass of the verb dispatch for a finalized nonempty command string,
following the elif chain of gptCLI.py lines 299-452.  The branches wrapped
in try/except in the source (execute and compile) always return normally;
the file-system calls issued outside any try (run and savepy writing the
scratch or output file, save writing the buffer, the open read, deletekey
removing the key file, rekey writing the key file) raise when the world
fails them, modelled by the error result. -/
def execCommand (st : Editor) (w : EdWorld) (command : PyStr) : Except Unit CmdOut :=
  match toVerb (pyLower ((pySplitWs command).headD [])) (pySplitWs command).tail with
  | .vExecute =>
    match w.respond with
    | none => .ok (.proceed st none)
    | some r => .ok (.proceed { st with lastCompile := some r } none)
  | .vCompile =>
    match w.respond with
    | none => .ok (.proceed st none)
    | some r => .ok (.proceed { st with lastCompile := some r } none)
  | .vRun =>
    if lastHasCode st then
      if w.writeOk then .ok (.proceed st none) else .error ()
    else .ok (.proceed st (some "No code section available from last compile.".data))
  | .vSavepy =>
    if lastHasCode st then
      if w.writeOk then
        .ok (.proceed st (some ("Python code saved to ".data ++ [squote] ++
          pyJoinSpace (pySplitWs command).tail ++ [squote] ++ ".".data)))
      else .error ()
    else .ok (.proceed st (some "No code available from last compile.".data))
  | .vOpen =>
    if w.fileExists (pyJoinSpace (pySplitWs command).tail) then
      match w.readFile (pyJoinSpace (pySplitWs command).tail) with
      | none => .error ()
      | some content =>
        .ok (.proceed { st with buffer := openBufferOf content, cy := 0, cx := 0 } none)
    else
      .ok (.proceed st (some ("File ".data ++ [squote] ++
        pyJoinSpace (pySplitWs command).tail ++ [squote] ++ " not found.".data)))
  | .vSave =>
    if w.writeOk then
      .ok (.proceed st (some ("Saved to ".data ++ [squote] ++
        pyJoinSpace (pySplitWs command).tail ++ [squote] ++ ".".data)))
    else .error ()
  | .vDeletekey =>
    if w.keyFileExists then
      if w.removeOk then
        .ok (.proceed { st with apiKey := [] } (some "API key file deleted.".data))
      else .error ()
    else .ok (.proceed st (some "No API key file found.".data))
  | .vRekey =>
    if w.userInput ≠ [] then
      if w.writeOk then
        .ok (.proceed { st with apiKey := w.userInput } (some "API key updated and saved.".data))
      else .error ()
    else .ok (.proceed st none)
  | .vHelp => .ok (.proceed st none)
  | .vExit => .ok .exitEditor
  | .vUnknown => .ok (.proceed st (some ("Unknown command: ".data ++ command)))

/-- The two interpreter modes. -/
inductive EdMode where
  | insert
  | command
deriving DecidableEq, Repr

/-- The full session state of the key loop: the editor data, the mode and
the in-progress command string. -/
structure Session where
  ed : Editor
  mode : EdMode
  commandStr : PyStr
deriving DecidableEq, Repr

/-- Pressing enter in command mode (gptCLI.py lines 290-298 and 446-457):
the semicolon characters are stripped from the left, the rest trimmed; an
empty command only returns to insert mode; otherwise the command is
dispatched and, unless the session ends or the handler raises, the mode
reverts to insert with the command string cleared. -/
def commandEnter (s : Session) (w : EdWorld) : Except Unit (Option Session) :=
  let command := pyStrip (pyLstripChar semiChar s.commandStr)
  if command = [] then .ok (some { s with mode := .insert, commandStr := [] })
  else
    match execCommand s.ed w command with
    | .error e => .error e
    | .ok .exitEditor => .ok none
    | .ok (.proceed ed _) => .ok (some ⟨ed, .insert, []⟩)

/-! ## The completion client token budget (gptInterpreter.py lines 49-64) -/

/-- The context window constant of ChatGPTClient. -/
def MAX_CONTEXT_TOKENS : Nat := 8192

/-- The safety margin constant of ChatGPTClient. -/
def CONTEXT_MARGIN : Nat := 10

/-- The per-message overhead constant of ChatGPTClient. -/
def MESSAGE_OVERHEAD : Nat := 3

/-- The guard logic of get_response as a function of the token counts of
the system prompt and the user prompt and of the requested budget: an
error is raised before any request is issued, an ok value is the budget
the request is sent with. -/
def getResponseBudget (systemTokens userTokens maxTokens : Nat) : Except PyStr Nat :=
  if systemTokens + userTokens + 2 * MESSAGE_OVERHEAD ≥ MAX_CONTEXT_TOKENS then
    .error "The provided input messages exceed the maximum allowed context length.".data
  else if min (maxTokens : Int) ((MAX_CONTEXT_TOKENS : Int) -
      (systemTokens + userTokens + 2 * MESSAGE_OVERHEAD) - CONTEXT_MARGIN) < 1 then
    .error "Not enough tokens left for the response. Please shorten your input.".data
  else
    .ok (min (maxTokens : Int) ((MAX_CONTEXT_TOKENS : Int) -
      (systemTokens + userTokens + 2 * MESSAGE_OVERHEAD) - CONTEXT_MARGIN)).toNat

/-! ## Concrete values used by witnesses and counterexamples -/

/-- A world in which every outside operation fails. -/
def wNoFs : EdWorld := ⟨none, false, false, false, fun _ => false, fun _ => none, []⟩

/-- A world in which every outside operation succeeds. -/
def wAllOk : EdWorld :=
  ⟨some "R".data, true, true, true, fun _ => true, fun _ => some "x".data, "k".data⟩

/-- A session in command mode holding an unknown command. -/
def sessC6 : Session := ⟨edInit, .command, ";zzz yy".data⟩

/-- The session produced by finalizing that command. -/
def sessC6out : Session := ⟨edInit, .insert, []⟩

/-- The reply text of the parser scenario. -/
def c7input : PyStr :=
  "Status: ok\nDesc: prints hi\nNext: None\nCode: print(".data ++
    [squote] ++ "hi".data ++ [squote] ++ [Char.ofNat 41]

/-- The code field the parser scenario expects. -/
def c7code : PyStr := "print(".data ++ [squote] ++ "hi".data ++ [squote] ++ [Char.ofNat 41]

/-! ## Theorems -/

/-- An ok result counts as ok. -/
@[simp]
theorem exceptIsOk_ok {ε : Type u} {α : Type v} (x : α) :
    (Except.ok x : Except ε α).isOk = true := rfl

/-- An error result does not count as ok. -/
@[simp]
theorem exceptIsOk_error {ε : Type u} {α : Type v} (e : ε) :
    (Except.error e : Except ε α).isOk = false := rfl

set_option maxHeartbeats 1000000 in
/-- A command is dispatched to the exit handler exactly when its verb is
exit. -/
theorem toVerb_eq_vExit_iff (cmd : PyStr) (args : List PyStr) :
    toVerb cmd args = .vExit ↔ cmd = "exit".data := by
  unfold toVerb
  split_ifs with h1 h2 h3 h4 h5 h6 h7 h8 h9 h10
  · rw [h1]; decide
  · rw [h2]; decide
  · rw [h3]; decide
  · rw [h4.1]; decide
  · rw [h5.1]; decide
  · rw [h6.1]; decide
  · rw [h7]; decide
  · rw [h8]; decide
  · rw [h9]; decide
  · rw [h10]; decide
  · exact iff_of_false (by decide) h10

/-- Claim C7: the strict single-pass pattern applied to the reply
Status: ok, Desc: prints hi, Next: None, Code: print of hi (each label on
its own line) yields the four stripped fields ok, prints hi, None, and the
print expression. -/
theorem c7_parser_scenario :
    parsedFields c7input =
      some ("ok".data, "prints hi".data, "None".data, c7code) := by
  decide

/-- Claim C10: the verbs open, save and savepy given with no argument fail
their argument guard and fall through to the unknown-command branch, which
reports them as unknown and leaves the editor data (buffer, cursor, last
compile result) unchanged. -/
theorem c10_missing_arg_reports_unknown (st : Editor) (w : EdWorld) :
    execCommand st w "open".data =
      .ok (.proceed st (some ("Unknown command: ".data ++ "open".data))) ∧
    execCommand st w "save".data =
      .ok (.proceed st (some ("Unknown command: ".data ++ "save".data))) ∧
    execCommand st w "savepy".data =
      .ok (.proceed st (some ("Unknown command: ".data ++ "savepy".data))) := by
  refine ⟨rfl, rfl, rfl⟩

/-- Claim C6: whenever pressing enter in command mode returns control to
the key loop (the handler neither raises nor terminates the session), the
resulting mode is insert and the command string is cleared, for every
in-progress command string, including unknown verbs and reported handler
errors. -/
theorem c6_finalize_reverts_to_insert (s : Session) (w : EdWorld) (s2 : Session)
    (h : commandEnter s w = .ok (some s2)) :
    s2.mode = .insert ∧ s2.commandStr = [] := by
  unfold commandEnter at h
  by_cases hc : pyStrip (pyLstripChar semiChar s.commandStr) = []
  · rw [if_pos hc] at h
    cases h
    exact ⟨rfl, rfl⟩
  · rw [if_neg hc] at h
    cases hE : execCommand s.ed w (pyStrip (pyLstripChar semiChar s.commandStr)) with
    | error e => rw [hE] at h; cases h
    | ok o =>
      rw [hE] at h
      cases o with
      | exitEditor => cases h
      | proceed ed msg => cases h; exact ⟨rfl, rfl⟩

/-- Witness for claim C6 at a concrete unknown command. -/
theorem c6_finalize_reverts_to_insert_witness :
    commandEnter sessC6 wNoFs = .ok (some sessC6out) ∧
      sessC6out.mode = .insert ∧ sessC6out.commandStr = [] :=
  ⟨by decide, c6_finalize_reverts_to_insert sessC6 wNoFs sessC6out (by decide)⟩

/-- Counterexample to claim C3: the save handler has no exception guard,
so a failing file write escapes the dispatcher as an exception instead of
being caught and rendered. -/
theorem c3_counterexample :
    execCommand edInit wNoFs "save f".data = .error () := by
  decide

/-- Claim C3 as amended: the compile and execute handlers catch every
failure of the completion client and of the scratch-file run, so they
always return control to the loop; and when the file system does not
fail, no verb raises and only the exit verb ends the session.  But the
file-system calls of the other handlers (save, savepy, run, rekey,
deletekey, and the read of the open verb) are not guarded, and their
failures propagate out of the dispatcher, as the counterexample shows. -/
theorem c3_amended (st : Editor) (w : EdWorld) (command : PyStr)
    (hw : w.writeOk = true) (hr : w.removeOk = true)
    (hread : ∀ f, (w.readFile f).isSome = true) :
    (execCommand st w command).isOk = true ∧
      (execCommand st w command = .ok .exitEditor ↔
        pyLower ((pySplitWs command).headD []) = "exit".data) ∧
      (∀ w2 : EdWorld,
        (pyLower ((pySplitWs command).headD []) = "compile".data ∨
         pyLower ((pySplitWs command).headD []) = "execute".data) →
        (execCommand st w2 command).isOk = true) := by
  refine ⟨?_, ?_, ?_⟩
  · unfold execCommand
    cases htv : toVerb (pyLower ((pySplitWs command).headD [])) (pySplitWs command).tail with
    | vExecute => cases w.respond <;> rfl
    | vCompile => cases w.respond <;> rfl
    | vRun => cases hlc : lastHasCode st <;> simp [hw]
    | vSavepy => cases hlc : lastHasCode st <;> simp [hw]
    | vOpen =>
      cases hfe : w.fileExists (pyJoinSpace (pySplitWs command).tail) with
      | false => simp
      | true =>
        cases hrf : w.readFile (pyJoinSpace (pySplitWs command).tail) with
        | none =>
          have hx := hread (pyJoinSpace (pySplitWs command).tail)
          rw [hrf] at hx; cases hx
        | some c => simp
    | vSave => simp [hw]
    | vDeletekey => cases hk : w.keyFileExists <;> simp [hr]
    | vRekey =>
      by_cases hu : w.userInput = []
      · simp [hu]
      · simp [hu, hw]
    | vHelp => rfl
    | vExit => rfl
    | vUnknown => rfl
  · unfold execCommand
    rw [← toVerb_eq_vExit_iff (pyLower ((pySplitWs command).headD []))
      (pySplitWs command).tail]
    cases htv : toVerb (pyLower ((pySplitWs command).headD [])) (pySplitWs command).tail with
    | vExecute => cases w.respond <;> simp
    | vCompile => cases w.respond <;> simp
    | vRun => cases hlc : lastHasCode st <;> simp [hw]
    | vSavepy => cases hlc : lastHasCode st <;> simp [hw]
    | vOpen =>
      cases hfe : w.fileExists (pyJoinSpace (pySplitWs command).tail) with
      | false => simp
      | true =>
        cases hrf : w.readFile (pyJoinSpace (pySplitWs command).tail) with
        | none =>
          have hx := hread (pyJoinSpace (pySplitWs command).tail)
          rw [hrf] at hx; cases hx
        | some c => simp
    | vSave => simp [hw]
    | vDeletekey => cases hk : w.keyFileExists <;> simp [hr]
    | vRekey =>
      by_cases hu : w.userInput = []
      · simp [hu]
      · simp [hu, hw]
    | vHelp => simp
    | vExit => simp
    | vUnknown => simp
  · intro w2 hcmd
    unfold execCommand
    rcases hcmd with hcmd | hcmd <;> rw [hcmd] <;> cases w2.respond <;> rfl

/-- Witness for claim C3 as amended, at the exit verb in a healthy
world. -/
theorem c3_amended_witness :
    (execCommand edInit wAllOk "exit".data).isOk = true :=
  (c3_amended edInit wAllOk "exit".data rfl rfl (fun _ => rfl)).1

/-- Forward evaluation of the budget guard in the successful case. -/
theorem budget_ok_val (s u m : Nat)
    (h1 : ¬ (s + u + 2 * MESSAGE_OVERHEAD ≥ MAX_CONTEXT_TOKENS))
    (h2 : ¬ (min (m : Int) ((MAX_CONTEXT_TOKENS : Int) -
      (s + u + 2 * MESSAGE_OVERHEAD) - CONTEXT_MARGIN) < 1)) :
    getResponseBudget s u m = .ok (min (m : Int) ((MAX_CONTEXT_TOKENS : Int) -
      (s + u + 2 * MESSAGE_OVERHEAD) - CONTEXT_MARGIN)).toNat := by
  unfold getResponseBudget
  rw [if_neg h1, if_neg h2]

/-- Claim C8: with any requested response budget of at least one token,
the client raises before issuing the request whenever the combined prompt
token count reaches the context window; when a request is issued its
budget is the requested budget clamped to the remaining headroom (the
context window minus the input tokens, including the per-message
overhead, minus the safety margin); and it raises before the request
whenever that headroom is below one. -/
theorem c8_token_budget (s u m : Nat) (hm : 1 ≤ m) :
    (8192 ≤ s + u → (getResponseBudget s u m).isOk = false) ∧
    (∀ n, getResponseBudget s u m = .ok n →
      (n : Int) = min (m : Int) (8192 - ((s : Int) + u + 6) - 10)) ∧
    ((8192 : Int) - ((s : Int) + u + 6) - 10 < 1 →
      (getResponseBudget s u m).isOk = false) ∧
    (s + u + 6 < 8192 → 1 ≤ (8192 : Int) - ((s : Int) + u + 6) - 10 →
      (getResponseBudget s u m).isOk = true) := by
  refine ⟨?_, ?_, ?_, ?_⟩
  · intro hin
    unfold getResponseBudget MAX_CONTEXT_TOKENS CONTEXT_MARGIN MESSAGE_OVERHEAD
    split_ifs with h1 h2
    · rfl
    · rfl
    · exfalso; omega
  · intro n hn
    by_cases h1 : s + u + 2 * MESSAGE_OVERHEAD ≥ MAX_CONTEXT_TOKENS
    · rw [show getResponseBudget s u m =
          .error "The provided input messages exceed the maximum allowed context length.".data
          from by unfold getResponseBudget; rw [if_pos h1]] at hn
      exact Except.noConfusion hn
    · by_cases h2 : min (m : Int) ((MAX_CONTEXT_TOKENS : Int) -
        (s + u + 2 * MESSAGE_OVERHEAD) - CONTEXT_MARGIN) < 1
      · rw [show getResponseBudget s u m =
            .error "Not enough tokens left for the response. Please shorten your input.".data
            from by unfold getResponseBudget; rw [if_neg h1, if_pos h2]] at hn
        exact Except.noConfusion hn
      · rw [budget_ok_val s u m h1 h2] at hn
        have hn2 := Except.ok.inj hn
        subst hn2
        unfold MAX_CONTEXT_TOKENS MESSAGE_OVERHEAD CONTEXT_MARGIN at h2 ⊢
        rw [Int.toNat_of_nonneg (by omega)]
        push_cast
        omega
  · intro hsmall
    unfold getResponseBudget MAX_CONTEXT_TOKENS CONTEXT_MARGIN MESSAGE_OVERHEAD
    split_ifs with h1 h2
    · rfl
    · rfl
    · exfalso; omega
  · intro hin hroom
    unfold getResponseBudget MAX_CONTEXT_TOKENS CONTEXT_MARGIN MESSAGE_OVERHEAD
    split_ifs with h1 h2
    · exfalso; omega
    · exfalso; omega
    · rfl

/-- Reading back the updated entry of a list. -/
theorem getD_set_self_of_lt (l : List PyStr) (i : Nat) (x : PyStr) (hi : i < l.length) :
    (l.set i x).getD i [] = x := by
  rw [List.getD_eq_getElem?_getD, List.getElem?_set_self hi]
  rfl

/-- The open verb always produces at least one line. -/
theorem openBufferOf_ne_nil (content : PyStr) : openBufferOf content ≠ [] := by
  unfold openBufferOf
  cases pySplitlines content with
  | nil => simp
  | cons a t => simp

/-- Each editing event preserves the buffer and cursor invariant. -/
theorem edStep_preserves_inv (st : Editor) (e : EdEvent) (h : EdInv st) :
    EdInv (edStep st e) := by
  obtain ⟨h1, h2, h3⟩ := h
  have hlen : 0 < st.buffer.length := List.length_pos.mpr h1
  cases e with
  | insertChar c =>
    refine ⟨?_, ?_, ?_⟩
    · simp only [edStep]
      refine List.length_pos.mp ?_
      rw [List.length_set]
      omega
    · simp [edStep, List.length_set]; omega
    · simp only [edStep, curLine]
      rw [getD_set_self_of_lt _ _ _ (by simpa [List.length_set] using h2)]
      rw [List.length_append, List.length_take, List.length_cons, List.length_drop]
      have hmin : min st.cx (curLine st).length = st.cx := Nat.min_eq_left h3
      simp only [curLine] at hmin
      rw [hmin]
      simp only [curLine] at h3
      omega
  | backspace =>
    simp only [edStep]
    split_ifs with hx hy
    · refine ⟨?_, ?_, ?_⟩
      · refine List.length_pos.mp ?_
        rw [List.length_set]
        omega
      · simp [List.length_set]; omega
      · simp only [curLine]
        rw [getD_set_self_of_lt _ _ _ (by simpa [List.length_set] using h2)]
        rw [List.length_append, List.length_take, List.length_drop]
        have hmin : min (st.cx - 1) (curLine st).length = st.cx - 1 :=
          Nat.min_eq_left (by simp only [curLine] at h3 ⊢; omega)
        simp only [curLine] at hmin
        rw [hmin]
        simp only [curLine] at h3
        omega
    · have hlen2 : (st.buffer.eraseIdx st.cy).length = st.buffer.length - 1 := by
        rw [List.length_eraseIdx]; simp [h2]
      refine ⟨?_, ?_, ?_⟩
      · refine List.length_pos.mp ?_
        rw [List.length_set, hlen2]
        omega
      · simp [List.length_set, hlen2]; omega
      · simp only [curLine]
        rw [getD_set_self_of_lt _ _ _ (by simp [hlen2]; omega)]
        simp
    · exact ⟨h1, h2, h3⟩
  | enter =>
    have hle : st.cy + 1 ≤ (st.buffer.set st.cy ((curLine st).take st.cx)).length := by
      simp [List.length_set]; omega
    refine ⟨?_, ?_, ?_⟩
    · simp only [edStep]
      refine List.length_pos.mp ?_
      rw [List.length_insertIdx _ _ hle, List.length_set]
      omega
    · simp only [edStep]
      rw [List.length_insertIdx _ _ hle]
      simp [List.length_set]; omega
    · simp [edStep]
  | moveLeft =>
    simp only [edStep]
    split_ifs with hx hy
    · exact ⟨h1, h2, by simp [curLine] at h3 ⊢; omega⟩
    · exact ⟨h1, by simp; omega, by simp [curLine]⟩
    · exact ⟨h1, h2, h3⟩
  | moveRight =>
    simp only [edStep]
    split_ifs with hx hy
    · exact ⟨h1, h2, by simp [curLine] at hx ⊢; omega⟩
    · exact ⟨h1, by simp; omega, by simp⟩
    · exact ⟨h1, h2, h3⟩
  | moveUp =>
    simp only [edStep]
    split_ifs with hx
    · exact ⟨h1, by simp; omega, by simp [curLine]⟩
    · exact ⟨h1, h2, h3⟩
  | moveDown =>
    simp only [edStep]
    split_ifs with hx
    · exact ⟨h1, by simp; omega, by simp [curLine]⟩
    · exact ⟨h1, h2, h3⟩
  | openFile content =>
    refine ⟨openBufferOf_ne_nil content, ?_, ?_⟩
    · simp [edStep]
      exact List.length_pos.mpr (openBufferOf_ne_nil content)
    · simp [edStep]

/-- Claim C1: starting from the initial one-empty-line document, every
sequence of insert-mode editing events (character insertion, backspace,
enter, the four arrow moves) and successful open verbs keeps the
invariant: the buffer has at least one line, the cursor row is a valid
index, and the cursor column is between zero and the current line
length. -/
theorem c1_editor_invariant (evs : List EdEvent) : EdInv (evs.foldl edStep edInit) := by
  induction evs using List.reverseRecOn with
  | nil => exact ⟨by decide, by decide, by decide⟩
  | append_singleton l e ih =>
    rw [List.foldl_append]
    exact edStep_preserves_inv _ e ih

/-- Witness for claim C8 at concrete token counts. -/
theorem c8_token_budget_witness :
    (getResponseBudget 9000 0 8000).isOk = false ∧
      (getResponseBudget 4000 4000 8000).isOk = true := by
  have h := c8_token_budget 9000 0 8000 (by norm_num)
  have h2 := c8_token_budget 4000 4000 8000 (by norm_num)
  exact ⟨h.1 (by norm_num), h2.2.2.2 (by norm_num) (by norm_num)⟩

/-- A carriage return is a line boundary. -/
theorem isLineBreak_of_cr (c : Char) (h : c.toNat = 13) : isLineBreak c = true := by
  simp [isLineBreak, h]

/-- Unfolding of the break-free test on a cons cell. -/
theorem breakFree_cons (c : Char) (l : List Char) :
    breakFree (c :: l) = (!isLineBreak c && breakFree l) := by
  simp [breakFree]


/-- The splitlines worker accumulates an ordinary character. -/
theorem slAux_cons_not_break (cur : List Char) (c : Char) (t : List Char)
    (h13 : ¬ c.toNat = 13) (hbr : isLineBreak c = false) :
    slAux cur (c :: t) = slAux (c :: cur) t := by
  cases t <;> simp [slAux, h13, hbr]

/-- The splitlines worker emits the current line at a boundary other
than a carriage return. -/
theorem slAux_cons_break (cur : List Char) (c : Char) (t : List Char)
    (h13 : ¬ c.toNat = 13) (hbr : isLineBreak c = true) :
    slAux cur (c :: t) = cur.reverse :: slAux [] t := by
  cases t <;> simp [slAux, h13, hbr]

/-- Every line emitted by the splitlines worker is free of line
boundaries. -/
theorem slAux_mem_breakFree (cur s : List Char) :
    breakFree cur = true → ∀ l ∈ slAux cur s, breakFree l = true := by
  induction cur, s using slAux.induct with
  | case1 cur hc => intro hcur l hl; simp [slAux, hc] at hl
  | case2 cur hc =>
    intro hcur l hl
    simp [slAux, hc] at hl
    subst hl
    simpa [breakFree] using hcur
  | case3 cur c h13 t1 t2 h10 ih =>
    intro hcur l hl
    rw [show slAux cur (c :: t1 :: t2) = cur.reverse :: slAux [] t2 from by
      simp [slAux, h13, h10]] at hl
    rcases List.mem_cons.mp hl with hl | hl
    · subst hl; simpa [breakFree] using hcur
    · exact ih (by decide) l hl
  | case4 cur c h13 t1 t2 h10 ih =>
    intro hcur l hl
    rw [show slAux cur (c :: t1 :: t2) = cur.reverse :: slAux [] (t1 :: t2) from by
      simp [slAux, h13, h10]] at hl
    rcases List.mem_cons.mp hl with hl | hl
    · subst hl; simpa [breakFree] using hcur
    · exact ih (by decide) l hl
  | case5 cur c h13 ih =>
    intro hcur l hl
    rw [show slAux cur [c] = cur.reverse :: slAux [] [] from by
      simp [slAux, h13]] at hl
    rcases List.mem_cons.mp hl with hl | hl
    · subst hl; simpa [breakFree] using hcur
    · exact ih (by decide) l hl
  | case6 cur c t h13 hbr ih =>
    intro hcur l hl
    rw [slAux_cons_break cur c t h13 hbr] at hl
    rcases List.mem_cons.mp hl with hl | hl
    · subst hl; simpa [breakFree] using hcur
    · exact ih (by decide) l hl
  | case7 cur c t h13 hbr ih =>
    intro hcur l hl
    rw [slAux_cons_not_break cur c t h13 (by simpa using hbr)] at hl
    refine ih ?_ l hl
    rw [breakFree_cons]
    simp only [Bool.not_eq_true] at hbr
    simp [hbr, hcur]

/-- Every line of splitlines is free of line boundaries. -/
theorem pySplitlines_breakFree (s : PyStr) :
    ∀ l ∈ pySplitlines s, breakFree l = true :=
  slAux_mem_breakFree [] s (by decide)

/-- The splitlines worker passes over a break-free block whole. -/
theorem slAux_append (l rest cur : List Char) (hl : breakFree l = true) :
    slAux cur (l ++ rest) = slAux (l.reverse ++ cur) rest := by
  induction l generalizing cur with
  | nil => simp
  | cons c l' ih =>
    rw [breakFree_cons, Bool.and_eq_true] at hl
    obtain ⟨hbr', hl'⟩ := hl
    have hbr : isLineBreak c = false := by simpa using hbr'
    have h13 : ¬ c.toNat = 13 := by
      intro h; rw [isLineBreak_of_cr c h] at hbr; cases hbr
    rw [List.cons_append, slAux_cons_not_break cur c (l' ++ rest) h13 hbr,
      ih (c :: cur) hl']
    simp

/-- The splitlines worker emits the current line at a newline. -/
theorem slAux_nl_cons (cur r : List Char) :
    slAux cur (nlChar :: r) = cur.reverse :: slAux [] r :=
  slAux_cons_break cur nlChar r (by decide) (by decide)

/-- Splitlines of a break-free string is that string as its only line,
or no line at all when it is empty. -/
theorem pySplitlines_single (l : PyStr) (hl : breakFree l = true) :
    pySplitlines l = if l = [] then [] else [l] := by
  have h := slAux_append l [] [] hl
  simp only [List.append_nil] at h
  unfold pySplitlines
  rw [h, show slAux l.reverse [] =
    if (l.reverse).isEmpty then [] else [l.reverse.reverse] from rfl]
  cases l <;> simp

/-- Splitlines peels off a leading break-free line ending in a
newline. -/
theorem pySplitlines_append_nl (l r : PyStr) (hl : breakFree l = true) :
    pySplitlines (l ++ nlChar :: r) = l :: pySplitlines r := by
  unfold pySplitlines
  rw [slAux_append l (nlChar :: r) [] hl, slAux_nl_cons]
  simp

/-- Unfolding of intercalate on a list with at least two blocks. -/
theorem intercalate_cons₂ (sep : List Char) (l : List Char) (ls : List (List Char))
    (h : ls ≠ []) :
    List.intercalate sep (l :: ls) = l ++ sep ++ List.intercalate sep ls := by
  cases ls with
  | nil => cases h rfl
  | cons m ls' =>
    simp [List.intercalate, List.intersperse_cons_cons]

/-- Splitting a newline join of break-free lines returns the lines,
except that one final empty line is absorbed by the terminal newline. -/
theorem splitlines_intercalate (ls : List PyStr) (hne : ls ≠ [])
    (hbf : ∀ l ∈ ls, breakFree l = true) :
    pySplitlines (List.intercalate newlineStr ls) =
      if ls.getLast? = some [] then ls.dropLast else ls := by
  induction ls with
  | nil => cases hne rfl
  | cons l ls ih =>
    cases ls with
    | nil =>
      rw [show List.intercalate newlineStr [l] = l from by simp [List.intercalate]]
      rw [pySplitlines_single l (hbf l (by simp))]
      by_cases hq : l = []
      · subst hq; simp
      · simp [hq]
    | cons m ls' =>
      rw [intercalate_cons₂ newlineStr l (m :: ls') (by simp)]
      rw [show l ++ newlineStr ++ List.intercalate newlineStr (m :: ls') =
        l ++ (nlChar :: List.intercalate newlineStr (m :: ls')) from by simp [newlineStr]]
      rw [pySplitlines_append_nl l _ (hbf l (by simp))]
      rw [ih (by simp) (fun x hx => hbf x (by simp [hx]))]
      rw [List.getLast?_cons_cons]
      split_ifs with hq
      · rw [show (l :: m :: ls').dropLast = l :: (m :: ls').dropLast from
          List.dropLast_cons_of_ne_nil (by simp)]
      · rfl

/-- Counterexample to claim C2: a document whose last line is empty
loses that line in the save and open round trip, so the round trip does
not reproduce every line sequence exactly. -/
theorem c2_counterexample :
    openBufferOf (saveContent ["a".data, []]) = ["a".data] ∧
      ["a".data] ≠ ["a".data, ([] : PyStr)] := by
  decide

/-- Claim C2 as amended: the save and open round trip reproduces the
line sequence exactly for every document whose lines contain no
line-boundary characters and whose final line is nonempty, and for the
single-empty-line document; a document ending in an empty line instead
loses exactly that final empty line. -/
theorem c2_amended (buf : List PyStr) (hne : buf ≠ [])
    (hbf : ∀ l ∈ buf, breakFree l = true) (hlast : buf.getLast? ≠ some []) :
    openBufferOf (saveContent buf) = buf ∧
      openBufferOf (saveContent [[]]) = [[]] := by
  constructor
  · unfold openBufferOf saveContent
    rw [splitlines_intercalate buf hne hbf, if_neg hlast, if_neg hne]
  · decide

/-- Witness for claim C2 as amended at a concrete two-line document. -/
theorem c2_amended_witness :
    openBufferOf (saveContent ["ab".data, "c".data]) = ["ab".data, "c".data] :=
  (c2_amended ["ab".data, "c".data] (by decide) (by decide) (by decide)).1

/-- Commenting a line keeps it free of line boundaries. -/
theorem commentLabel_breakFree (l : PyStr) (h : breakFree l = true) :
    breakFree (commentLabel l) = true := by
  unfold commentLabel
  split_ifs
  · rw [breakFree_cons, show isLineBreak hashChar = false from by decide]
    simpa using h
  · exact h

/-- Commenting never empties a line nor fills an empty one. -/
theorem commentLabel_eq_nil_iff (l : PyStr) : commentLabel l = [] ↔ l = [] := by
  unfold commentLabel
  split_ifs with hm
  · constructor
    · intro h; cases h
    · intro h; subst h; exact absurd hm (by decide)
  · exact Iff.rfl

/-- The lines of the sanitized text are exactly the commented lines of
the fence-stripped input, provided the latter does not end in an empty
line. -/
theorem sanitize_lines (s : PyStr)
    (hlast : (pySplitlines (stripFences s)).getLast? ≠ some []) :
    pySplitlines (sanitizeCode s) =
      (pySplitlines (stripFences s)).map commentLabel := by
  unfold sanitizeCode
  by_cases hne : pySplitlines (stripFences s) = []
  · rw [hne]; rfl
  · have hlast2 : ((pySplitlines (stripFences s)).map commentLabel).getLast? ≠ some [] := by
      rw [List.getLast?_map]
      intro hq
      rcases hopt : (pySplitlines (stripFences s)).getLast? with _ | m
      · rw [hopt] at hq; cases hq
      · rw [hopt] at hq
        simp only [Option.map_some'] at hq
        have hmnil := (commentLabel_eq_nil_iff m).mp (Option.some.inj hq)
        subst hmnil
        exact hlast hopt
    rw [splitlines_intercalate _ (by simpa using hne)
      (fun l hl => by
        obtain ⟨m, hm, rfl⟩ := List.mem_map.mp hl
        exact commentLabel_breakFree m (pySplitlines_breakFree _ m hm)),
      if_neg hlast2]

/-- Claim C4 as amended: after fence removal, every line beginning with
optional whitespace and one of the three labels Status:, Desc: or Next:
is commented out with a hash and every other line, including a
Code:-labeled line, is unchanged; the line count of the fence-stripped
text is preserved provided its final line is nonempty (otherwise the
final empty line is absorbed when the lines are rejoined, as the
counterexample shows). -/
theorem c4_amended (s : PyStr)
    (hlast : (pySplitlines (stripFences s)).getLast? ≠ some []) :
    pySplitlines (sanitizeCode s) =
      (pySplitlines (stripFences s)).map commentLabel ∧
    (pySplitlines (sanitizeCode s)).length =
      (pySplitlines (stripFences s)).length ∧
    ∀ l ∈ pySplitlines (stripFences s),
      (labelMatch l = true → commentLabel l = hashChar :: l) ∧
      (labelMatch l = false → commentLabel l = l) := by
  have hmain := sanitize_lines s hlast
  refine ⟨hmain, by rw [hmain]; simp, fun l hl => ⟨fun h => by simp [commentLabel, h],
    fun h => by simp [commentLabel, h]⟩⟩

/-- Counterexample to claim C4: a line bearing the fourth label Code: is
not commented out, and an input ending in a line break loses a line, so
neither the four-label clause nor the exact line-count clause holds. -/
theorem c4_counterexample :
    pySplitlines (sanitizeCode "Code: x\n\n".data) = ["Code: x".data] ∧
    pySplitlines "Code: x\n\n".data = ["Code: x".data, []] ∧
    sanitizeCode "Code: x\n\n".data = "Code: x\n".data := by
  decide

/-- Witness for claim C4 as amended at a concrete labeled text. -/
theorem c4_amended_witness :
    pySplitlines (sanitizeCode "Status: a\ncode".data) =
      (pySplitlines (stripFences "Status: a\ncode".data)).map commentLabel :=
  (c4_amended "Status: a\ncode".data (by decide)).1

/-- A nonempty pattern never starts the empty string. -/
theorem isPrefixOf_nil_eq_false (pat : PyStr) (hp : pat ≠ []) :
    pat.isPrefixOf ([] : List Char) = false := by
  cases pat with
  | nil => cases hp rfl
  | cons a b => rfl

/-- Splitting always yields at least one piece. -/
theorem splitFuel_ne_nil (pat : PyStr) (f : Nat) (s : PyStr) :
    splitFuel pat f s ≠ [] := by
  induction f generalizing s with
  | zero => simp [splitFuel]
  | succ f ih =>
    unfold splitFuel
    split_ifs with h1
    · simp
    · cases s with
      | nil => simp
      | cons c t =>
        cases hq : splitFuel pat f t with
        | nil => simp [hq]
        | cons h r => simp [hq]

/-- The split worker ignores surplus fuel. -/
theorem splitFuel_fuel (pat : PyStr) (hp : pat ≠ []) (f g : Nat) (s : PyStr)
    (hf : s.length ≤ f) (hg : s.length ≤ g) :
    splitFuel pat f s = splitFuel pat g s := by
  induction f generalizing g s with
  | zero =>
    have hs : s = [] := List.length_eq_zero.mp (Nat.le_zero.mp hf)
    subst hs
    cases g with
    | zero => rfl
    | succ g =>
      unfold splitFuel
      rw [if_neg (by simp [isPrefixOf_nil_eq_false pat hp])]
  | succ f ih =>
    cases g with
    | zero =>
      have hs : s = [] := List.length_eq_zero.mp (Nat.le_zero.mp hg)
      subst hs
      unfold splitFuel
      rw [if_neg (by simp [isPrefixOf_nil_eq_false pat hp])]
    | succ g =>
      unfold splitFuel
      by_cases h1 : pat ≠ [] ∧ pat.isPrefixOf s
      · rw [if_pos h1, if_pos h1]
        have hplen : 1 ≤ pat.length := by
          cases pat with
          | nil => cases hp rfl
          | cons a b => simp
        have hd : (s.drop pat.length).length ≤ f := by
          rw [List.length_drop]; omega
        have hd2 : (s.drop pat.length).length ≤ g := by
          rw [List.length_drop]; omega
        rw [ih g (s.drop pat.length) hd hd2]
      · rw [if_neg h1, if_neg h1]
        cases s with
        | nil => rfl
        | cons c t =>
          have ht : t.length ≤ f := by simp at hf; omega
          have ht2 : t.length ≤ g := by simp at hg; omega
          have heq := ih g t ht ht2
          simp only [heq]

/-- The substring test agrees with the existence of an after-part. -/
theorem containsFuel_isSome (pat : PyStr) (f : Nat) (s : PyStr) :
    containsFuel pat f s = (afterFuel pat f s).isSome := by
  induction f generalizing s with
  | zero =>
    unfold containsFuel afterFuel
    by_cases h : pat.isPrefixOf s <;> simp [h]
  | succ f ih =>
    unfold containsFuel afterFuel
    by_cases h : pat.isPrefixOf s
    · simp [h]
    · simp only [h, if_false, Bool.false_or]
      cases s with
      | nil => simp
      | cons c t => simpa using ih t

/-- Without an occurrence, the before-part is the whole string. -/
theorem beforeFuel_of_after_none (pat : PyStr) (f : Nat) (s : PyStr)
    (h : afterFuel pat f s = none) : beforeFuel pat f s = s := by
  induction f generalizing s with
  | zero =>
    unfold afterFuel at h
    unfold beforeFuel
    by_cases hq : pat.isPrefixOf s
    · rw [if_pos hq] at h; cases h
    · rw [if_neg hq]
  | succ f ih =>
    unfold afterFuel at h
    unfold beforeFuel
    by_cases hq : pat.isPrefixOf s
    · rw [if_pos hq] at h; cases h
    · rw [if_neg hq] at h
      rw [if_neg hq]
      cases s with
      | nil => rfl
      | cons c t =>
        have h2 : afterFuel pat f t = none := h
        show c :: beforeFuel pat f t = c :: t
        rw [ih t h2]


/-- Unfolding of the split worker on a cons cell. -/
theorem splitFuel_succ (pat : PyStr) (f : Nat) (c : Char) (t : List Char) :
    splitFuel pat (f + 1) (c :: t) =
      if pat ≠ [] ∧ pat.isPrefixOf (c :: t) then
        [] :: splitFuel pat f ((c :: t).drop pat.length)
      else
        match splitFuel pat f t with
        | [] => [[c]]
        | h :: r => (c :: h) :: r := rfl

/-- Unfolding of the after-part worker on a cons cell. -/
theorem afterFuel_succ (pat : PyStr) (f : Nat) (c : Char) (t : List Char) :
    afterFuel pat (f + 1) (c :: t) =
      if pat.isPrefixOf (c :: t) then some ((c :: t).drop pat.length)
      else afterFuel pat f t := rfl

/-- Unfolding of the before-part worker on a cons cell. -/
theorem beforeFuel_succ (pat : PyStr) (f : Nat) (c : Char) (t : List Char) :
    beforeFuel pat (f + 1) (c :: t) =
      if pat.isPrefixOf (c :: t) then []
      else c :: beforeFuel pat f t := rfl

/-- The split decomposes as the before-part followed by the split of
the after-part, by induction bounded on the string length. -/
theorem pySplit_eq_bounded (pat : PyStr) (hp : pat ≠ []) :
    ∀ n (s : PyStr), s.length ≤ n →
      pySplit pat s =
        match afterFirstOcc pat s with
        | none => [s]
        | some rest => takeBeforeFirstOcc pat s :: pySplit pat rest := by
  have hnil : pySplit pat [] =
      match afterFirstOcc pat ([] : PyStr) with
      | none => [[]]
      | some rest => takeBeforeFirstOcc pat [] :: pySplit pat rest := by
    unfold pySplit afterFirstOcc takeBeforeFirstOcc
    simp only [List.length_nil]
    unfold splitFuel afterFuel beforeFuel
    rw [if_neg (by simp [isPrefixOf_nil_eq_false pat hp])]
  intro n
  induction n with
  | zero =>
    intro s hs
    have h0 : s = [] := List.length_eq_zero.mp (Nat.le_zero.mp hs)
    subst h0
    exact hnil
  | succ n ih =>
    intro s hs
    cases s with
    | nil => exact hnil
    | cons c t =>
      show splitFuel pat (c :: t).length (c :: t) =
        match afterFuel pat (c :: t).length (c :: t) with
        | none => [c :: t]
        | some rest => beforeFuel pat (c :: t).length (c :: t) :: pySplit pat rest
      simp only [List.length_cons]
      rw [splitFuel_succ, afterFuel_succ, beforeFuel_succ]
      by_cases hpre : pat.isPrefixOf (c :: t)
      · rw [if_pos ⟨hp, hpre⟩, if_pos hpre, if_pos hpre]
        have hplen : 1 ≤ pat.length := by
          cases pat with
          | nil => cases hp rfl
          | cons a b => simp
        have hlen : ((c :: t).drop pat.length).length ≤ t.length := by
          rw [List.length_drop]; simp; omega
        rw [splitFuel_fuel pat hp t.length ((c :: t).drop pat.length).length _ hlen le_rfl]
        rfl
      · rw [if_neg (by simp [hpre]), if_neg hpre, if_neg hpre]
        have htn : t.length ≤ n := by simp at hs; omega
        have iht := ih t htn
        show (match splitFuel pat t.length t with
              | [] => [[c]]
              | h :: r => (c :: h) :: r) =
          match afterFuel pat t.length t with
          | none => [c :: t]
          | some rest => (c :: beforeFuel pat t.length t) :: pySplit pat rest
        unfold pySplit afterFirstOcc takeBeforeFirstOcc at iht
        cases hq : afterFuel pat t.length t with
        | none =>
          rw [hq] at iht
          have iht2 : splitFuel pat t.length t = [t] := iht
          rw [iht2]
        | some rest =>
          rw [hq] at iht
          have iht2 : splitFuel pat t.length t =
              beforeFuel pat t.length t :: pySplit pat rest := iht
          rw [iht2]

/-- The split decomposes as the before-part followed by the split of
the after-part of the first occurrence. -/
theorem pySplit_eq (pat s : PyStr) (hp : pat ≠ []) :
    pySplit pat s =
      match afterFirstOcc pat s with
      | none => [s]
      | some rest => takeBeforeFirstOcc pat s :: pySplit pat rest :=
  pySplit_eq_bounded pat hp s.length s le_rfl

/-- The substring test agrees with the existence of text after the
first occurrence. -/
theorem pyContains_iff_afterFirstOcc (pat s : PyStr) :
    pyContains pat s = (afterFirstOcc pat s).isSome :=
  containsFuel_isSome pat s.length s

/-- The first piece of a split is the text before the first
occurrence. -/
theorem pySplit_headD (pat s : PyStr) (hp : pat ≠ []) :
    (pySplit pat s).headD [] = takeBeforeFirstOcc pat s := by
  rw [pySplit_eq pat s hp]
  cases ha : afterFirstOcc pat s with
  | none =>
    simp only [List.headD_cons]
    exact (beforeFuel_of_after_none pat s.length s ha).symm
  | some rest => simp only [List.headD_cons]

/-- The second piece of a split is the text between the first
occurrence and the next one. -/
theorem pySplit_getD_one (pat s rest : PyStr) (hp : pat ≠ [])
    (ha : afterFirstOcc pat s = some rest) :
    (pySplit pat s).getD 1 [] = takeBeforeFirstOcc pat rest := by
  rw [pySplit_eq pat s hp, ha]
  show (pySplit pat rest).getD 0 [] = takeBeforeFirstOcc pat rest
  rw [← pySplit_headD pat rest hp]
  cases hq : pySplit pat rest with
  | nil => exact absurd hq (splitFuel_ne_nil pat rest.length rest)
  | cons h r => rfl

/-- Claim C5 as amended: when the strict pattern fails and the Code:
marker is absent, the whole reply becomes the header and the code is
empty; when the marker occurs, the header is everything before its
first occurrence but the code is only the segment between the first
occurrence and the next one (both stripped), not everything after the
first marker; the fallback is a total function and never raises. -/
theorem c5_amended (r : PyStr) (hfail : strictMatch r = none) :
    (pyContains codeMarker r = false → parseExec r = (pyStrip r, [])) ∧
    (pyContains codeMarker r = true →
      ∃ rest, afterFirstOcc codeMarker r = some rest ∧
        parseExec r = (pyStrip (takeBeforeFirstOcc codeMarker r),
          pyStrip (takeBeforeFirstOcc codeMarker rest))) := by
  have hp : codeMarker ≠ [] := by decide
  constructor
  · intro hc
    unfold parseExec parsedFields
    rw [hfail]
    simp only [Option.map_none, hc]
    rfl
  · intro hc
    have hsome : (afterFirstOcc codeMarker r).isSome := by
      rw [← pyContains_iff_afterFirstOcc, hc]
    obtain ⟨rest, ha⟩ := Option.isSome_iff_exists.mp hsome
    refine ⟨rest, ha, ?_⟩
    unfold parseExec parsedFields
    rw [hfail]
    simp only [Option.map_none, hc, if_pos]
    rw [pySplit_headD codeMarker r hp, pySplit_getD_one codeMarker r rest hp ha]
    rfl

/-- Counterexample to claim C5: with two Code: markers the fallback
keeps only the segment between them as code, not everything after the
first marker as the claim states. -/
theorem c5_counterexample :
    strictMatch "x Code: a Code: b".data = none ∧
    parseExec "x Code: a Code: b".data = ("x".data, "a".data) ∧
    pyStrip ((afterFirstOcc codeMarker "x Code: a Code: b".data).getD []) =
      "a Code: b".data ∧
    ("a".data : PyStr) ≠ "a Code: b".data := by
  decide

/-- Witness for claim C5 as amended at a concrete reply without the
strict labels. -/
theorem c5_amended_witness :
    ∃ rest, afterFirstOcc codeMarker "hello Code: world".data = some rest ∧
      parseExec "hello Code: world".data =
        (pyStrip (takeBeforeFirstOcc codeMarker "hello Code: world".data),
         pyStrip (takeBeforeFirstOcc codeMarker rest)) :=
  (c5_amended "hello Code: world".data (by decide)).2 (by decide)

/-- Unfolding of the replace worker at positive fuel. -/
theorem replaceFuel_succ (pat repl : PyStr) (f : Nat) (s : PyStr) :
    replaceFuel pat repl (f + 1) s =
      if pat ≠ [] ∧ pat.isPrefixOf s then
        repl ++ replaceFuel pat repl f (s.drop pat.length)
      else
        match s with
        | [] => []
        | c :: t => c :: replaceFuel pat repl f t := rfl

/-- The fence-free shape is closed under dropping the head. -/
theorem noTriple_tail (c : Char) (r : List Char) (h : noTriple (c :: r) = true) :
    noTriple r = true := by
  cases r with
  | nil => rfl
  | cons r1 rr =>
    cases rr with
    | nil => rfl
    | cons r2 rrr =>
      simp only [noTriple, Bool.and_eq_true] at h
      exact h.2

/-- Prepending a character other than a backquote keeps a string
fence-free. -/
theorem noTriple_cons_of_ne (c : Char) (b : List Char) (hc : ¬ c = bq)
    (hb : noTriple b = true) : noTriple (c :: b) = true := by
  cases b with
  | nil => rfl
  | cons b1 bb =>
    cases bb with
    | nil => rfl
    | cons b2 bbb =>
      simp only [noTriple, Bool.and_eq_true]
      exact ⟨by simp [hc], hb⟩

/-- A string starting with the bare fence starts with three
backquotes. -/
theorem fence_isPrefixOf_start (t : List Char) (h : fence.isPrefixOf t = true) :
    ∃ u, t = bq :: bq :: bq :: u := by
  rw [List.isPrefixOf_iff_prefix] at h
  obtain ⟨w, hw⟩ := h
  exact ⟨w, hw.symm⟩

/-- If removing fences leaves a leading backquote, the input had a
leading backquote. -/
theorem replaceFuel_head_bq (f : Nat) (t : List Char) (r : List Char)
    (hf : t.length ≤ f) (h : replaceFuel fence [] f t = bq :: r) :
    ∃ u, t = bq :: u := by
  cases f with
  | zero =>
    have ht : t = [] := List.length_eq_zero.mp (Nat.le_zero.mp hf)
    subst ht
    cases h
  | succ f =>
    unfold replaceFuel at h
    split_ifs at h with h1
    · obtain ⟨u, hu⟩ := fence_isPrefixOf_start t h1.2
      exact ⟨bq :: bq :: u, by rw [hu]⟩
    · cases t with
      | nil => cases h
      | cons c t' =>
        have hc := (List.cons.inj h).1
        exact ⟨t', by rw [hc]⟩

/-- Removing every bare fence leaves no three consecutive backquotes:
within a backquote run the worker removes three at a time from the
left, so at most two survive, and removed text is all backquotes so no
new run can be assembled. -/
theorem noTriple_replaceFuel_fence (f : Nat) (s : List Char) (hf : s.length ≤ f) :
    noTriple (replaceFuel fence [] f s) = true := by
  induction f generalizing s with
  | zero =>
    have hs : s = [] := List.length_eq_zero.mp (Nat.le_zero.mp hf)
    subst hs
    rfl
  | succ f ih =>
    unfold replaceFuel
    split_ifs with h1
    · have hd : (s.drop fence.length).length ≤ f := by
        rw [List.length_drop]
        have h3 := List.IsPrefix.length_le (List.isPrefixOf_iff_prefix.mp h1.2)
        simp only [show fence.length = 3 from rfl] at *
        omega
      simpa using ih (s.drop fence.length) hd
    · cases s with
      | nil => rfl
      | cons c t =>
        show noTriple (c :: replaceFuel fence [] f t) = true
        have ht : t.length ≤ f := by simp at hf; omega
        have hR : noTriple (replaceFuel fence [] f t) = true := ih t ht
        cases hRq : replaceFuel fence [] f t with
        | nil => rfl
        | cons r1 R1 =>
          cases R1 with
          | nil => rfl
          | cons r2 R2 =>
            rw [hRq] at hR
            simp only [noTriple, Bool.and_eq_true]
            refine ⟨?_, hR⟩
            by_cases hcb : c = bq
            · by_cases hr1 : r1 = bq
              · by_cases hr2 : r2 = bq
                · exfalso
                  subst hcb; subst hr1; subst hr2
                  have hnp : fence.isPrefixOf (bq :: t) = false := by
                    cases hq : fence.isPrefixOf (bq :: t) with
                    | false => rfl
                    | true => exact absurd ⟨by decide, hq⟩ h1
                  have hpre2 : List.isPrefixOf [bq, bq] t = false := by
                    rw [show fence = [bq, bq, bq] from rfl] at hnp
                    simpa [List.isPrefixOf] using hnp
                  obtain ⟨u, hu⟩ := replaceFuel_head_bq f t _ ht hRq
                  subst hu
                  have hu1 : List.isPrefixOf [bq] u = false := by
                    simpa [List.isPrefixOf] using hpre2
                  cases f with
                  | zero => simp at ht
                  | succ f' =>
                    have hstep : replaceFuel fence [] (f' + 1) (bq :: u) =
                        bq :: replaceFuel fence [] f' u := by
                      rw [replaceFuel_succ, if_neg ?hside]
                      case hside =>
                        intro hx
                        have hx2 := hx.2
                        rw [show fence = [bq, bq, bq] from rfl] at hx2
                        simp only [List.isPrefixOf, beq_self_eq_true, Bool.true_and] at hx2
                        cases u with
                        | nil => simp [List.isPrefixOf] at hx2
                        | cons u0 uu =>
                          simp only [List.isPrefixOf, Bool.and_eq_true, beq_iff_eq] at hx2
                          obtain ⟨hbu, _⟩ := hx2
                          simp [List.isPrefixOf, hbu] at hu1
                    rw [hstep] at hRq
                    have h2 : replaceFuel fence [] f' u = bq :: R2 :=
                      (List.cons.inj hRq).2
                    obtain ⟨v, hv⟩ := replaceFuel_head_bq f' u _ (by simp at ht; omega) h2
                    subst hv
                    simp [List.isPrefixOf] at hu1
                · simp [hr2]
              · simp [hr1]
            · simp [hcb]

/-- The fence replace leaves a fence-free string. -/
theorem noTriple_pyReplace_fence (s : List Char) :
    noTriple (pyReplace fence [] s) = true :=
  noTriple_replaceFuel_fence s.length s le_rfl

/-- Fence stripping leaves a fence-free string. -/
theorem noTriple_stripFences (s : PyStr) : noTriple (stripFences s) = true :=
  noTriple_pyReplace_fence (pyReplace fencePy [] s)

/-- The fence-free shape is closed under dropping a prefix. -/
theorem noTriple_append_right (a b : List Char) (h : noTriple (a ++ b) = true) :
    noTriple b = true := by
  induction a with
  | nil => exact h
  | cons c a' ih => exact ih (noTriple_tail c (a' ++ b) h)

/-- The fence-free shape is closed under dropping a suffix. -/
theorem noTriple_append_left (a b : List Char) (h : noTriple (a ++ b) = true) :
    noTriple a = true := by
  induction a with
  | nil => rfl
  | cons c a' ih =>
    have h' := noTriple_tail c (a' ++ b) h
    have ha' := ih h'
    cases a' with
    | nil => rfl
    | cons a1 aa =>
      cases aa with
      | nil => rfl
      | cons a2 aaa =>
        simp only [noTriple, Bool.and_eq_true]
        refine ⟨?_, ha'⟩
        simp only [List.cons_append] at h
        simp only [noTriple, Bool.and_eq_true] at h
        exact h.1

/-- The fence-free shape is closed under contiguous substrings. -/
theorem noTriple_of_substring (l s : List Char) (hin : l <:+: s)
    (h : noTriple s = true) : noTriple l = true := by
  obtain ⟨a, b, hab⟩ := hin
  subst hab
  exact noTriple_append_left l b (noTriple_append_right a (l ++ b) (by
    rwa [List.append_assoc] at h))

/-- Joining two fence-free strings with a character other than a
backquote keeps the result fence-free. -/
theorem noTriple_append_cons (a b : List Char) (c0 : Char) (hc : ¬ c0 = bq)
    (ha : noTriple a = true) (hb : noTriple b = true) :
    noTriple (a ++ c0 :: b) = true := by
  induction a with
  | nil => exact noTriple_cons_of_ne c0 b hc hb
  | cons c a' ih =>
    have hinner := ih (noTriple_tail c a' ha)
    show noTriple (c :: (a' ++ c0 :: b)) = true
    cases ha' : a' with
    | nil =>
      subst ha'
      cases b with
      | nil => rfl
      | cons b1 bb =>
        simp only [List.nil_append, noTriple, Bool.and_eq_true]
        refine ⟨by simp [hc], ?_⟩
        simpa using hinner
    | cons a1 aa =>
      subst ha'
      cases aa with
      | nil =>
        simp only [List.cons_append, List.nil_append, noTriple, Bool.and_eq_true]
        refine ⟨by simp [hc], ?_⟩
        simpa using hinner
      | cons a2 aaa =>
        simp only [List.cons_append, noTriple, Bool.and_eq_true]
        refine ⟨?_, by simpa using hinner⟩
        simp only [noTriple, Bool.and_eq_true] at ha
        simpa using ha.1

/-- A newline join of fence-free lines is fence-free. -/
theorem noTriple_intercalate (ls : List PyStr)
    (h : ∀ l ∈ ls, noTriple l = true) :
    noTriple (List.intercalate newlineStr ls) = true := by
  induction ls with
  | nil => rfl
  | cons l ls ih =>
    cases ls with
    | nil =>
      rw [show List.intercalate newlineStr [l] = l from by simp [List.intercalate]]
      exact h l (by simp)
    | cons m ls' =>
      rw [intercalate_cons₂ newlineStr l (m :: ls') (by simp)]
      rw [show l ++ newlineStr ++ List.intercalate newlineStr (m :: ls') =
        l ++ (nlChar :: List.intercalate newlineStr (m :: ls')) from by simp [newlineStr]]
      exact noTriple_append_cons l _ nlChar (by decide) (h l (by simp))
        (ih (fun x hx => h x (by simp [hx])))

/-- Every line emitted by the splitlines worker is a contiguous
substring of its input. -/
theorem slAux_mem_substring (cur s : List Char) :
    ∀ l ∈ slAux cur s, l <:+: (cur.reverse ++ s) := by
  induction cur, s using slAux.induct with
  | case1 cur hc => intro l hl; simp [slAux, hc] at hl
  | case2 cur hc =>
    intro l hl
    simp [slAux, hc] at hl
    subst hl
    exact ⟨[], [], by simp⟩
  | case3 cur c h13 t1 t2 h10 ih =>
    intro l hl
    rw [show slAux cur (c :: t1 :: t2) = cur.reverse :: slAux [] t2 from by
      simp [slAux, h13, h10]] at hl
    rcases List.mem_cons.mp hl with hl | hl
    · subst hl; exact ⟨[], c :: t1 :: t2, by simp⟩
    · have := ih l hl
      simp only [List.reverse_nil, List.nil_append] at this
      exact this.trans ⟨cur.reverse ++ [c, t1], [], by simp⟩
  | case4 cur c h13 t1 t2 h10 ih =>
    intro l hl
    rw [show slAux cur (c :: t1 :: t2) = cur.reverse :: slAux [] (t1 :: t2) from by
      simp [slAux, h13, h10]] at hl
    rcases List.mem_cons.mp hl with hl | hl
    · subst hl; exact ⟨[], c :: t1 :: t2, by simp⟩
    · have := ih l hl
      simp only [List.reverse_nil, List.nil_append] at this
      exact this.trans ⟨cur.reverse ++ [c], [], by simp⟩
  | case5 cur c h13 ih =>
    intro l hl
    rw [show slAux cur [c] = cur.reverse :: slAux [] [] from by
      simp [slAux, h13]] at hl
    rcases List.mem_cons.mp hl with hl | hl
    · subst hl; exact ⟨[], [c], by simp⟩
    · simp [slAux] at hl
  | case6 cur c t h13 hbr ih =>
    intro l hl
    rw [slAux_cons_break cur c t h13 hbr] at hl
    rcases List.mem_cons.mp hl with hl | hl
    · subst hl; exact ⟨[], c :: t, by simp⟩
    · have := ih l hl
      simp only [List.reverse_nil, List.nil_append] at this
      exact this.trans ⟨cur.reverse ++ [c], [], by simp⟩
  | case7 cur c t h13 hbr ih =>
    intro l hl
    rw [slAux_cons_not_break cur c t h13 (by simpa using hbr)] at hl
    have := ih l hl
    simpa using this

/-- Every splitlines line is a contiguous substring of the text. -/
theorem pySplitlines_mem_substring (s : PyStr) :
    ∀ l ∈ pySplitlines s, l <:+: s := by
  intro l hl
  simpa using slAux_mem_substring [] s l hl

/-- A fence-free string contains no pattern starting with three
backquotes. -/
theorem noTriple_not_containsFuel (pat : PyStr)
    (hpat : pat.take 3 = [bq, bq, bq]) (f : Nat) (s : List Char)
    (h : noTriple s = true) : containsFuel pat f s = false := by
  have hpre : ∀ u, noTriple u = true → pat.isPrefixOf u = false := by
    intro u hu
    cases hq : pat.isPrefixOf u with
    | false => rfl
    | true =>
      exfalso
      rw [List.isPrefixOf_iff_prefix] at hq
      obtain ⟨w, hw⟩ := hq
      have h3 : u = bq :: bq :: bq :: (pat.drop 3 ++ w) := by
        rw [← hw, ← List.take_append_drop 3 pat, hpat]
        simp
      rw [h3] at hu
      simp [noTriple] at hu
  induction f generalizing s with
  | zero => exact hpre s h
  | succ f ih =>
    unfold containsFuel
    rw [hpre s h]
    simp only [Bool.false_or]
    cases s with
    | nil => rfl
    | cons c t => exact ih t (noTriple_tail c t h)

/-- A fence-free string contains neither fence marker. -/
theorem noTriple_not_contains (pat : PyStr)
    (hpat : pat.take 3 = [bq, bq, bq]) (s : List Char)
    (h : noTriple s = true) : pyContains pat s = false :=
  noTriple_not_containsFuel pat hpat s.length s h

/-- Replacing a pattern that does not occur changes nothing. -/
theorem replaceFuel_id_of_not_contains (pat repl : PyStr) (f : Nat) (s : PyStr)
    (h : containsFuel pat f s = false) : replaceFuel pat repl f s = s := by
  induction f generalizing s with
  | zero => rfl
  | succ f ih =>
    unfold containsFuel at h
    rw [Bool.or_eq_false_iff] at h
    obtain ⟨h1, h2⟩ := h
    rw [replaceFuel_succ, if_neg (by simp [h1])]
    cases s with
    | nil => rfl
    | cons c t =>
      show c :: replaceFuel pat repl f t = c :: t
      rw [ih t h2]

/-- Replace is the identity when the pattern does not occur. -/
theorem pyReplace_id_of_not_contains (pat repl s : PyStr)
    (h : pyContains pat s = false) : pyReplace pat repl s = s :=
  replaceFuel_id_of_not_contains pat repl s.length s h

/-- A line already commented with a hash never matches the label
test. -/
theorem labelMatch_hash_cons (l : PyStr) : labelMatch (hashChar :: l) = false := by
  unfold labelMatch
  rw [show (hashChar :: l).dropWhile isPySpace = hashChar :: l from by
    rw [List.dropWhile_cons]
    simp [show isPySpace hashChar = false from by decide]]
  show ("Status:".data.isPrefixOf (hashChar :: l) ||
    "Desc:".data.isPrefixOf (hashChar :: l) ||
    "Next:".data.isPrefixOf (hashChar :: l)) = false
  rw [show "Status:".data.isPrefixOf (hashChar :: l) =
      ((Char.ofNat 83 == hashChar) && "tatus:".data.isPrefixOf l) from rfl]
  rw [show "Desc:".data.isPrefixOf (hashChar :: l) =
      ((Char.ofNat 68 == hashChar) && "esc:".data.isPrefixOf l) from rfl]
  rw [show "Next:".data.isPrefixOf (hashChar :: l) =
      ((Char.ofNat 78 == hashChar) && "ext:".data.isPrefixOf l) from rfl]
  simp [show (Char.ofNat 83 == hashChar) = false from by decide,
    show (Char.ofNat 68 == hashChar) = false from by decide,
    show (Char.ofNat 78 == hashChar) = false from by decide]

/-- Commenting is idempotent per line. -/
theorem commentLabel_idem (l : PyStr) :
    commentLabel (commentLabel l) = commentLabel l := by
  unfold commentLabel
  split_ifs with h1 h2 <;>
    first
    | rfl
    | exact absurd h2 (by rw [labelMatch_hash_cons]; exact Bool.false_ne_true)

/-- The sanitized text is fence-free. -/
theorem noTriple_sanitizeCode (s : PyStr) : noTriple (sanitizeCode s) = true := by
  unfold sanitizeCode
  apply noTriple_intercalate
  intro l' hl'
  obtain ⟨m, hm, rfl⟩ := List.mem_map.mp hl'
  have hmt : noTriple m = true :=
    noTriple_of_substring m (stripFences s) (pySplitlines_mem_substring _ m hm)
      (noTriple_stripFences s)
  unfold commentLabel
  split_ifs
  · exact noTriple_cons_of_ne hashChar m (by decide) hmt
  · exact hmt

/-- Fence stripping does not change already sanitized text. -/
theorem stripFences_sanitizeCode (s : PyStr) :
    stripFences (sanitizeCode s) = sanitizeCode s := by
  unfold stripFences
  rw [pyReplace_id_of_not_contains fencePy [] (sanitizeCode s)
    (noTriple_not_contains fencePy rfl _ (noTriple_sanitizeCode s))]
  rw [pyReplace_id_of_not_contains fence [] (sanitizeCode s)
    (noTriple_not_contains fence rfl _ (noTriple_sanitizeCode s))]

/-- Claim C9 as amended: the preprocessing applied to its own output
yields the output unchanged whenever the fence-stripped input does not
end in an empty final line; already commented lines are not commented
again and sanitized text contains no fence markers; in the remaining
case a second pass only removes the final newline that re-joining
normalized, as the counterexample shows. -/
theorem c9_amended (s : PyStr)
    (hlast : (pySplitlines (stripFences s)).getLast? ≠ some []) :
    sanitizeCode (sanitizeCode s) = sanitizeCode s := by
  calc sanitizeCode (sanitizeCode s)
      = List.intercalate newlineStr
          ((pySplitlines (stripFences (sanitizeCode s))).map commentLabel) := rfl
    _ = List.intercalate newlineStr
          ((pySplitlines (sanitizeCode s)).map commentLabel) := by
        rw [stripFences_sanitizeCode]
    _ = List.intercalate newlineStr
          (((pySplitlines (stripFences s)).map commentLabel).map commentLabel) := by
        rw [sanitize_lines s hlast]
    _ = List.intercalate newlineStr
          ((pySplitlines (stripFences s)).map commentLabel) := by
        rw [List.map_map]
        congr 1
        exact List.map_congr_left (fun l _ => commentLabel_idem l)
    _ = sanitizeCode s := rfl

/-- Counterexample to claim C9: the text of two newlines sanitizes to
one newline, and sanitizing that output drops the remaining newline, so
the pass is not idempotent on its own output. -/
theorem c9_counterexample :
    sanitizeCode "\n\n".data = "\n".data ∧
    sanitizeCode (sanitizeCode "\n\n".data) = ([] : PyStr) ∧
    sanitizeCode (sanitizeCode "\n\n".data) ≠ sanitizeCode "\n\n".data := by
  decide

/-- Witness for claim C9 as amended at a concrete labeled text. -/
theorem c9_amended_witness :
    sanitizeCode (sanitizeCode "Status: ok\nprint(1)".data) =
      sanitizeCode "Status: ok\nprint(1)".data :=
  c9_amended "Status: ok\nprint(1)".data (by decide)

end Y2P
